import Mathlib

/-!
Verification development for the HSM "peeling" toolpath planner
(`src/geometry.py`).

The planner is shallowly embedded over exact rational arithmetic.  All
calls into the external 2D geometry library (shapely) and into the
external medial-axis service (`VoronoiCenters`) are abstracted as fields
of an `Env` record of oracles: each field's doc comment names the exact
library call it stands for.  Everything written in the repository itself
(control flow, queueing, the arc-fit controller loop, angle/modulus
arithmetic, winding resolution) is translated line by line.

Angles in the source are produced by `math.atan2` and reduced with
Python's `%` operator, whose result for a positive modulus always lies
in `[0, modulus)`.  The modulus `2 * math.pi` is the oracle field
`twoPi` (an arbitrary positive rational standing for the real 2π); the
`%` operator is modelled exactly by `pymod` below.
-/

set_option linter.unusedVariables false

namespace HSM

/-- A 2D point, modelling `shapely.geometry.Point` coordinates. -/
abbrev Pt : Type := ℚ × ℚ

/-- Default point used for (unreachable) empty-list accesses. -/
def ptZero : Pt := ((0 : ℚ), (0 : ℚ))

/-- Python's `%` operator on rationals: `pymod a m = a - m * ⌊a / m⌋`.
For `m > 0` the result lies in `[0, m)`, exactly like CPython. -/
def pymod (a m : ℚ) : ℚ := a - m * (Int.floor (a / m) : ℚ)

/-- Models `class ArcDir(Enum)` from `geometry.py`. -/
inductive ArcDir where
  | CW
  | CCW
  | Closest
deriving DecidableEq, Repr

/-- Models `class MoveStyle(Enum)` from `geometry.py`. -/
inductive MoveStyle where
  | RAPID_OUTSIDE
  | RAPID_INSIDE
  | CUT
deriving DecidableEq, Repr

/-- Models the `ArcData` named tuple.  `startPt`/`endPt` model the
`start`/`end` fields; `path` holds the coordinate list of the
`LineString`. -/
structure ArcData where
  origin : Pt
  radius : Option ℚ
  startPt : Option Pt
  endPt : Option Pt
  startAngle : Option ℚ
  spanAngle : Option ℚ
  windingDir : Option ArcDir
  path : List Pt
  debug : Option String
deriving DecidableEq, Repr

/-- Default `ArcData` used for (unreachable) empty-queue accesses. -/
def arcDefault : ArcData :=
  { origin := ptZero, radius := none, startPt := none, endPt := none,
    startAngle := none, spanAngle := none, windingDir := none,
    path := [], debug := none }

/-- Models the `LineData` named tuple. -/
structure LineData where
  startPt : Pt
  endPt : Pt
  path : List Pt
  moveStyle : MoveStyle
deriving DecidableEq, Repr

/-- An element of `self.path`: `Union[ArcData, LineData]`. -/
inductive PathElem where
  | arc (a : ArcData)
  | line (l : LineData)
deriving DecidableEq, Repr

/-- `ITERATION_COUNT = 50`. -/
def ITERATION_COUNT : ℕ := 50

/-- `BREADTH_FIRST = False`. -/
def BREADTH_FIRST : Bool := false

/-- `CORNER_ZOOM = 2.0`. -/
def CORNER_ZOOM : ℚ := 2

/-- `CORNER_ZOOM_EFFECT = 1.0`. -/
def CORNER_ZOOM_EFFECT : ℚ := 1

/-- The proportional gain fed to `self._converge` in `_calculate_arc`:
`self._converge(0.76)`. -/
def convergeKp : ℚ := 76 / 100

/-- One `converge.send((target, current))` step of the proportional
controller generator `_converge(kp)`: it returns `kp * (target - current)`
and keeps no state between sends. -/
def convergeSend (kp target current : ℚ) : ℚ := kp * (target - current)

/-- Per-combined-edge oracle data.  `length` models
`voronoi_edge.length`; `arcAt d` models
`self._arc_at_distance(d, edge_extended)` — interpolation along the
edge extrapolated by `dist_offset` on both ends
(`self._extrapolate_line(dist_offset, voronoi_edge)`) paired with
`self.voronoi.distance_from_geom(pos)`. -/
structure EdgeCtx where
  length : ℚ
  arcAt : ℚ → Pt × ℚ

/-- Oracle record for every external geometry-library and Voronoi-service
call the planner makes, plus the planner's scalar configuration.
`Poly` is the abstract type of shapely (Multi)Polygons. -/
structure Env (Poly : Type) where
  /-- `self.step`. -/
  step : ℚ
  /-- `self.winding_dir`. -/
  windingDir : ArcDir
  /-- The real constant `2 * math.pi` (any positive rational stands in). -/
  twoPi : ℚ
  /-- `self.voronoi.max_dist`. -/
  maxDist : ℚ
  /-- `angle o p` models `math.atan2(p.x - o.x, p.y - o.y)`. -/
  angle : Pt → Pt → ℚ
  /-- `interpMid l` models `path.interpolate(0.5, normalized=True)`. -/
  interpMid : List Pt → Pt
  /-- `dist p q` models `Point.distance`. -/
  dist : Pt → Pt → ℚ
  /-- `pathDist l1 l2` models `LineString.distance(LineString)`. -/
  pathDist : List Pt → List Pt → ℚ
  /-- `pathLen l` models `LineString(l).length`. -/
  pathLen : List Pt → ℚ
  /-- `hausdorff p l` models `Point.hausdorff_distance(LineString)`. -/
  hausdorff : Pt → List Pt → ℚ
  /-- `distPolyPt poly p` models `polygon.distance(Point(p))`. -/
  distPolyPt : Poly → Pt → ℚ
  /-- `polyUnion a b` models `a.union(b)`. -/
  polyUnion : Poly → Poly → Poly
  /-- `bufferHalf l` models `LineString(l).buffer(self.step / 2)`. -/
  bufferHalf : List Pt → Poly
  /-- `polyOfPath l` models `Polygon(LineString(l))`. -/
  polyOfPath : List Pt → Poly
  /-- `circlePath o r` models `origin.buffer(radius).boundary` built in
  `create_circle`. -/
  circlePath : Pt → ℚ → List Pt
  /-- `diffFrags o r cut` models the fragment paths produced inside
  `arcs_from_circle_diff`: `circle.path.difference(polygon)` followed by
  `linemerge` and normalisation to a `MultiLineString` (empty list when
  the difference is empty). -/
  diffFrags : Pt → ℚ → Poly → List (List Pt)
  /-- `inDilatedBoundary poly` models the `_filter_arc` test
  `any(ring.contains(poly) for ring in self.dilated_polygon_boundaries)`. -/
  inDilatedBoundary : Poly → Bool
  /-- `joinArcs last next` models `self.join_arcs(next)` with
  `self.last_arc = last`; its body is purely external geometry calls
  (`covered_by`, `buffer`, `difference`, `split`). -/
  joinArcs : ArcData → ArcData → List LineData
  /-- `edges e` models `self.voronoi.edges[e].coords`. -/
  edges : ℕ → List Pt
  /-- `edgeLen e` models `self.voronoi.edges[e].length`. -/
  edgeLen : ℕ → ℚ
  /-- `vertexToEdges v` models `self.voronoi.vertex_to_edges[v]`. -/
  vertexToEdges : Pt → List ℕ
  /-- `edgeCtxOf coords` bundles the per-combined-edge oracles for the
  `LineString` with those coordinates. -/
  edgeCtxOf : List Pt → EdgeCtx

/-- `create_circle(origin, radius)`. -/
def createCircle {Poly : Type} (env : Env Poly) (origin : Pt) (radius : ℚ) : ArcData :=
  { origin := origin, radius := some radius, startPt := none, endPt := none,
    startAngle := some 0, spanAngle := some env.twoPi, windingDir := none,
    path := env.circlePath origin radius, debug := some "" }

/-- `create_arc_from_path(origin, path, radius, debug)`. -/
def createArcFromPath (origin : Pt) (path : List Pt) (radius : ℚ)
    (debug : Option String) : ArcData :=
  { origin := origin, radius := some radius, startPt := none, endPt := none,
    startAngle := none, spanAngle := none, windingDir := none,
    path := path, debug := debug }

/-- `arcs_from_circle_diff(circle, polygon, debug)`: each merged fragment
of the circle boundary minus the cut polygon becomes an incomplete arc
via `create_arc_from_path(circle.origin, arc, circle.radius, debug)`. -/
def arcsFromCircleDiff {Poly : Type} (env : Env Poly) (origin : Pt) (radius : ℚ)
    (cutArea : Poly) (debug : Option String) : List ArcData :=
  (env.diffFrags origin radius cutArea).map
    (fun p => createArcFromPath origin p radius debug)

/-- The duplicate-filter loop of `_colapse_dupe_points`. -/
def colapseGo : List Pt → Option Pt → List Pt
  | [], _ => []
  | p :: rest, last =>
    if some p = last then colapseGo rest last
    else p :: colapseGo rest (some p)

/-- `_colapse_dupe_points(line)`: drop consecutive duplicates; `None`
when fewer than two points remain. -/
def colapseDupePoints (line : List Pt) : Option (List Pt) :=
  let points := colapseGo line none
  if points.length < 2 then none else some points

/-- `ds = (start_angle - mid_angle) % (2 * math.pi)` computed by
`complete_arc` (angles via `atan2(x - ox, y - oy)`). -/
def dsOf {Poly : Type} (env : Env Poly) (a : ArcData) : ℚ :=
  pymod (env.angle a.origin (a.path.headD ptZero)
          - env.angle a.origin (env.interpMid a.path)) env.twoPi

/-- `de = (mid_angle - end_angle) % (2 * math.pi)` computed by
`complete_arc`. -/
def deOf {Poly : Type} (env : Env Poly) (a : ArcData) : ℚ :=
  pymod (env.angle a.origin (env.interpMid a.path)
          - env.angle a.origin (a.path.getLastD ptZero)) env.twoPi

/-- The reversal test of `complete_arc`:
`(ds > 0 and de > 0 and winding_dir == ArcDir.CCW) or
 (ds < 0 and de < 0 and winding_dir == ArcDir.CW)`. -/
def needsReverse {Poly : Type} (env : Env Poly) (a : ArcData) (w : ArcDir) : Bool :=
  decide ((0 < dsOf env a ∧ 0 < deOf env a ∧ w = ArcDir.CCW) ∨
          (dsOf env a < 0 ∧ deOf env a < 0 ∧ w = ArcDir.CW))

/-- The raw span angle of `complete_arc` before the full-circle fixup:
`(end_angle - start_angle) % 2π` for CW, the negated modulo for CCW.
For `ArcDir.Closest` the Python code leaves `span_angle` unbound and the
following read raises `UnboundLocalError`; that crash is modelled as
`none` (the planner never calls `complete_arc` with `Closest`). -/
def spanRaw {Poly : Type} (env : Env Poly) (w : ArcDir) (sAng eAng : ℚ) : Option ℚ :=
  match w with
  | ArcDir.CW => some (pymod (eAng - sAng) env.twoPi)
  | ArcDir.CCW => some (-(pymod (sAng - eAng) env.twoPi))
  | ArcDir.Closest => none

/-- `radius = arc_data.radius or arc_data.origin.distance(Point(path.coords[0]))`
with Python truthiness (`None` and `0.0` both fall through), where `path`
is the possibly reversed path. -/
def radiusOf {Poly : Type} (env : Env Poly) (a : ArcData) (path : List Pt) : ℚ :=
  match a.radius with
  | none => env.dist a.origin (path.headD ptZero)
  | some r => if r = 0 then env.dist a.origin (path.headD ptZero) else r

/-- `complete_arc(arc_data, winding_dir)`, translated line by line:
return `None` on a zero-length path; compute the three `atan2` angles at
the path start, midpoint and end; reverse the path and swap start/end
when the triple-angle test fires; compute the span by winding with the
zero-result-becomes-`2 * math.pi` fixup; fill in the radius. -/
def completeArc {Poly : Type} (env : Env Poly) (a : ArcData) (w : ArcDir) :
    Option ArcData :=
  if env.pathLen a.path = 0 then none
  else
    let startAngle0 := env.angle a.origin (a.path.headD ptZero)
    let endAngle0 := env.angle a.origin (a.path.getLastD ptZero)
    let rev := needsReverse env a w
    let path := if rev then a.path.reverse else a.path
    let startAngle := if rev then endAngle0 else startAngle0
    let endAngle := if rev then startAngle0 else endAngle0
    let startCoord := if rev then a.path.getLastD ptZero else a.path.headD ptZero
    let endCoord := if rev then a.path.headD ptZero else a.path.getLastD ptZero
    match spanRaw env w startAngle endAngle with
    | none => none
    | some sp =>
      some { origin := a.origin,
             radius := some (radiusOf env a path),
             startPt := some startCoord,
             endPt := some endCoord,
             startAngle := some startAngle,
             spanAngle := some (if sp = 0 then env.twoPi else sp),
             windingDir := some w,
             path := path,
             debug := a.debug }

/-- `_furthest_spacing_arcs(arcs, last_circle)`: the absolute value of
the running maximum, over the new arcs, of
`last_circle.origin.hausdorff_distance(arc.path) - last_circle.radius`,
seeded with `-self.voronoi.max_dist`. -/
def furthestSpacingArcs {Poly : Type} (env : Env Poly) (arcs : List ArcData)
    (lastCircle : ArcData) : ℚ :=
  |arcs.foldl
    (fun spacing arc =>
      max spacing (env.hausdorff lastCircle.origin arc.path - lastCircle.radius.getD 0))
    (-env.maxDist)|

/-- `_furthest_spacing_shapely(arcs, previous)` with `previous` the cut
area polygon: running maximum of `previous.distance(Point(coord))` over
every coordinate of every non-empty arc path, seeded with `-1`. -/
def furthestSpacingShapely {Poly : Type} (env : Env Poly) (cutArea : Poly)
    (arcs : List ArcData) : ℚ :=
  arcs.foldl
    (fun spacing arc =>
      if arc.path = [] then spacing
      else arc.path.foldl (fun sp coord => max sp (env.distPolyPt cutArea coord)) spacing)
    (-1)

/-- `_filter_arc(arc)` as a keep/drop decision: drop paths with fewer
than 3 coordinates, paths of length at most `step / 20`, and arcs whose
closed polygon sits inside a dilated pocket-boundary ring. -/
def filterArc {Poly : Type} (env : Env Poly) (arc : ArcData) : Bool :=
  if arc.path.length < 3 then false
  else if env.pathLen arc.path ≤ env.step / 20 then false
  else if env.inDilatedBoundary (env.polyOfPath arc.path) then false
  else true

/-- The mutable locals of the `while count <= ITERATION_COUNT` loop in
`_calculate_arc`.  `circle` keeps the `(pos, radius)` pair of the last
proposed circle. -/
structure FitSt where
  count : ℕ
  distance : ℚ
  progress : ℚ
  bestProgress : ℚ
  bestDistance : ℚ
  colorOveride : Option String
  circle : Option (Pt × ℚ)
  arcs : List ArcData
deriving DecidableEq, Repr

/-- How the fitter loop ended: `earlyEmpty` is the in-loop
`return (distance, [])` taken when the proposed circle is entirely
inside the cut area and no progress was ever made (it also records the
circle stored into `self.last_circle`); `finished` covers both `break`
exits and natural exhaustion of the `while` condition. -/
inductive FitOut where
  | earlyEmpty (distance : ℚ) (circle : Pt × ℚ)
  | finished (st : FitSt)
deriving DecidableEq, Repr

/-- The `while count <= ITERATION_COUNT` loop of `_calculate_arc`,
translated line by line.  `fuel` only bounds the recursion; the loop
itself exits through its own condition and `break`s (with
`fuel = ITERATION_COUNT + 2` the fuel can never run out first).
`dist_offset = 100000` appears literally as in the source. -/
def fitLoopGo {Poly : Type} (env : Env Poly) (ctx : EdgeCtx) (cutArea : Poly)
    (lastCircle : Option ArcData) (startDistance : ℚ) :
    ℕ → FitSt → FitOut
  | 0, st => FitOut.finished st
  | fuel + 1, st =>
    if st.count ≤ ITERATION_COUNT then
      let count2 := st.count + 1
      let pr := ctx.arcAt (st.distance + 100000)
      let arcs := arcsFromCircleDiff env pr.1 pr.2 cutArea st.colorOveride
      if arcs = [] then
        if 0 < st.bestProgress then
          FitOut.finished { st with count := ITERATION_COUNT,
                                    colorOveride := some "orange",
                                    circle := some pr, arcs := [] }
        else
          FitOut.earlyEmpty st.distance pr
      else
        let progress :=
          match lastCircle with
          | some lc => furthestSpacingArcs env arcs lc
          | none => furthestSpacingShapely env cutArea arcs
        let desired0 := min env.step (ctx.length - startDistance)
        let cornerZoom := CORNER_ZOOM * env.step
        let desired :=
          if pr.2 < cornerZoom then
            env.step - env.step * CORNER_ZOOM_EFFECT * ((cornerZoom - pr.2) / cornerZoom)
          else desired0
        if |desired - progress| < |desired - st.bestProgress| then
          if |desired - progress| < desired / 20 then
            FitOut.finished { count := count2, distance := st.distance,
                              progress := progress, bestProgress := progress,
                              bestDistance := st.distance,
                              colorOveride := st.colorOveride,
                              circle := some pr, arcs := arcs }
          else
            fitLoopGo env ctx cutArea lastCircle startDistance fuel
              { count := count2,
                distance := st.distance + convergeSend convergeKp desired progress,
                progress := progress, bestProgress := progress,
                bestDistance := st.distance, colorOveride := st.colorOveride,
                circle := some pr, arcs := arcs }
        else
          fitLoopGo env ctx cutArea lastCircle startDistance fuel
            { count := count2,
              distance := st.distance + convergeSend convergeKp desired progress,
              progress := progress, bestProgress := st.bestProgress,
              bestDistance := st.bestDistance, colorOveride := st.colorOveride,
              circle := some pr, arcs := arcs }
    else FitOut.finished st

/-- The planner's mutable state (the instance attributes touched by the
procedures modelled here; debug counters and timing are omitted). -/
structure PState (Poly : Type) where
  /-- `self.cut_area_total`. -/
  cutArea : Poly
  /-- `self.cut_area_total2`. -/
  cutArea2 : Poly
  /-- `self.last_circle`. -/
  lastCircle : Option ArcData
  /-- `self.last_arc`. -/
  lastArc : Option ArcData
  /-- `self.path`. -/
  path : List PathElem
  /-- `self.pending_arc_queues`. -/
  pendingArcQueues : List (List ArcData)
  /-- `self.visited_edges` (a Python set; recorded as the insertion
  sequence, membership via `∈`). -/
  visitedEdges : List ℕ
  /-- `self.open_paths` (a Python dict; association list, unique keys). -/
  openPaths : List (ℕ × Pt)
deriving DecidableEq, Repr

/-- `_calculate_arc(voronoi_edge, start_distance, min_distance)`:
the post-loop handling after `fitLoopGo`, the reconstruction at
`best_distance`, the `last_circle` / `cut_area_total` updates and the
`_filter_arc` pass.  Returns the `(distance, filtered_arcs)` pair and
the updated planner state. -/
def calcArc {Poly : Type} (env : Env Poly) (ctx : EdgeCtx) (st : PState Poly)
    (startDistance minDistance : ℚ) : (ℚ × List ArcData) × PState Poly :=
  let desired0 := min env.step (ctx.length - startDistance)
  let init : FitSt :=
    { count := 0, distance := startDistance + desired0, progress := 0,
      bestProgress := 0, bestDistance := 0, colorOveride := none,
      circle := none, arcs := [] }
  match fitLoopGo env ctx st.cutArea st.lastCircle startDistance
          (ITERATION_COUNT + 2) init with
  | FitOut.earlyEmpty d c =>
    ((d, []), { st with lastCircle := some (createCircle env c.1 c.2) })
  | FitOut.finished f =>
    if f.count = ITERATION_COUNT ∧ f.distance < minDistance then
      ((ctx.length, []), st)
    else
      let colorOveride := if f.count = ITERATION_COUNT then some "red" else f.colorOveride
      let bestDistance := if f.bestDistance > ctx.length then ctx.length else f.bestDistance
      let rebuilt :=
        if f.distance ≠ bestDistance ∨ f.progress ≠ f.bestProgress ∨ colorOveride ≠ none then
          let pr := ctx.arcAt (bestDistance + 100000)
          (bestDistance, pr, arcsFromCircleDiff env pr.1 pr.2 st.cutArea colorOveride)
        else (f.distance, f.circle.getD (ptZero, 0), f.arcs)
      let st2 :=
        { st with
            lastCircle := some (createCircle env rebuilt.2.1.1 rebuilt.2.1.2),
            cutArea := env.polyUnion st.cutArea
                         (env.polyOfPath (env.circlePath rebuilt.2.1.1 rebuilt.2.1.2)) }
      ((rebuilt.1, rebuilt.2.2.filter (fun a => filterArc env a)), st2)

/-- The `best_dist` update in the inner loop of `get_arcs`:
`if dist < best_dist and False: ... else: best_dist = dist`.  The
literal `and False` of the source is kept. -/
def updateBestDist (bestDist dist : ℚ) : ℚ :=
  if dist < bestDist ∧ False then bestDist else dist

/-- The winding resolution at the top of `_arcs_to_path`: `Closest`
alternates against `self.last_arc` (CW for the first arc). -/
def resolveWinding {Poly : Type} (env : Env Poly) (lastArc : Option ArcData) : ArcDir :=
  match env.windingDir with
  | ArcDir.Closest =>
    match lastArc with
    | none => ArcDir.CW
    | some la => if la.windingDir = some ArcDir.CCW then ArcDir.CW else ArcDir.CCW
  | w => w

/-- One iteration of the `while arcs` loop of `_arcs_to_path`: resolve
the winding, complete the arc (skipping it when `complete_arc` returns
`None`), emit the join moves and the arc, and union the swept channel
into `cut_area_total2`. -/
def arcsToPathStep {Poly : Type} (env : Env Poly) (st : PState Poly)
    (incompleteArc : ArcData) : PState Poly :=
  let w := resolveWinding env st.lastArc
  match completeArc env incompleteArc w with
  | none => st
  | some arc =>
    let joins :=
      match st.lastArc with
      | none => []
      | some la => (env.joinArcs la arc).map PathElem.line
    { st with
        path := st.path ++ joins ++ [PathElem.arc arc],
        cutArea2 := env.polyUnion st.cutArea2 (env.bufferHalf arc.path),
        lastArc := some arc }

/-- `_arcs_to_path(arcs)`: the `while arcs: arcs.pop(0)` loop. -/
def arcsToPath {Poly : Type} (env : Env Poly) (st : PState Poly)
    (arcs : List ArcData) : PState Poly :=
  arcs.foldl (arcsToPathStep env) st

/-- The distance from a new fragment's path to the tail arc of queue
number `k`: `arc.path.distance(queue[-1].path)`. -/
def tailDist {Poly : Type} (env : Env Poly) (a : ArcData)
    (queues : List (List ArcData)) (k : ℕ) : ℚ :=
  env.pathDist a.path ((queues.getD k []).getLastD arcDefault).path

/-- The scan of `_queue_arcs` over `enumerate(self.pending_arc_queues)`
keeping the strictly closest queue seen so far (`closest_dist`
initialised to `self.step`). -/
def findClosestGo {Poly : Type} (env : Env Poly) (a : ArcData) :
    List (List ArcData) → ℕ → ℚ → Option ℕ → ℚ × Option ℕ
  | [], _, cd, best => (cd, best)
  | q :: rest, i, cd, best =>
    let d := env.pathDist a.path (q.getLastD arcDefault).path
    if d < cd then findClosestGo env a rest (i + 1) d (some i)
    else findClosestGo env a rest (i + 1) cd best

/-- The index of the queue `_queue_arcs` appends a new fragment to, when
one lies strictly within `self.step`. -/
def findClosestQueue {Poly : Type} (env : Env Poly) (a : ArcData)
    (queues : List (List ArcData)) : Option ℕ :=
  (findClosestGo env a queues 0 env.step none).2

/-- Placing one new fragment: append to the closest queue within `step`,
otherwise create a new queue at the back.  Returns the updated queue
list and the index recorded into `modified_queues`. -/
def placeArc {Poly : Type} (env : Env Poly) (queues : List (List ArcData))
    (a : ArcData) : List (List ArcData) × ℕ :=
  match findClosestQueue env a queues with
  | some i => (queues.set i (queues.getD i [] ++ [a]), i)
  | none => (queues ++ [[a]], queues.length)

/-- The `for arc in new_arcs` loop of `_queue_arcs`, threading the queue
list and collecting `modified_queues` (as a list; membership is what the
drain test uses). -/
def processNewArcs {Poly : Type} (env : Env Poly) (queues : List (List ArcData))
    (newArcs : List ArcData) : List (List ArcData) × List ℕ :=
  newArcs.foldl
    (fun acc a =>
      let pl := placeArc env acc.1 a
      (pl.1, acc.2 ++ [pl.2]))
    (queues, [])

/-- `_queue_arcs(new_arcs)`: the single-queue/single-arc fast path, the
general placement loop, and the FIFO head-drain when some queue was
modified but queue 0 was not. -/
def queueArcs {Poly : Type} (env : Env Poly) (st : PState Poly)
    (newArcs : List ArcData) : PState Poly :=
  if newArcs.length = 1 ∧ st.pendingArcQueues.length = 1 then
    match st.pendingArcQueues, newArcs with
    | [q], [a] => arcsToPath env { st with pendingArcQueues := [] } (q ++ [a])
    | _, _ => st
  else
    let pr := processNewArcs env st.pendingArcQueues newArcs
    let st1 := { st with pendingArcQueues := pr.1 }
    if pr.2 ≠ [] ∧ 0 ∉ pr.2 then
      match pr.1 with
      | [] => st1
      | q0 :: rest => arcsToPath env { st1 with pendingArcQueues := rest } q0
    else st1

/-- `_flush_arc_queues()`: drain every pending queue FIFO through
`_arcs_to_path`. -/
def flushArcQueues {Poly : Type} (env : Env Poly) (st : PState Poly) : PState Poly :=
  st.pendingArcQueues.foldl (fun s q => arcsToPath env s q)
    { st with pendingArcQueues := [] }

/-- `self.open_paths[branch] = vertex` on the association list (dict
update-or-insert). -/
def upsertOpenPath (openPaths : List (ℕ × Pt)) (e : ℕ) (v : Pt) : List (ℕ × Pt) :=
  if openPaths.any (fun p => p.1 = e) then
    openPaths.map (fun p => if p.1 = e then (e, v) else p)
  else openPaths ++ [(e, v)]

/-- The candidate-selection loop at the top of `_join_branches`'s
`while True` body: iterate the vertex's branches, record unvisited ones
into `open_paths`, and keep a candidate according to `BREADTH_FIRST`
while tracking the running maximum `longest` (initialised to 0). -/
def selectCandidateGo (bf : Bool) (edgeLen : ℕ → ℚ) (visited : List ℕ) (vertex : Pt) :
    List ℕ → Option ℕ → ℚ → List (ℕ × Pt) → Option ℕ × List (ℕ × Pt)
  | [], candidate, _, openPaths => (candidate, openPaths)
  | br :: rest, candidate, longest, openPaths =>
    if br ∈ visited then
      selectCandidateGo bf edgeLen visited vertex rest candidate longest openPaths
    else
      let openPaths2 := upsertOpenPath openPaths br vertex
      let length := edgeLen br
      let candidate2 :=
        if candidate = none then some br
        else if bf = true ∧ length < longest then some br
        else if bf = false ∧ length > longest then some br
        else candidate
      selectCandidateGo bf edgeLen visited vertex rest candidate2
        (max longest length) openPaths2

/-- Candidate selection for one vertex visit in `_join_branches`. -/
def selectCandidate (bf : Bool) (edgeLen : ℕ → ℚ) (visited : List ℕ) (vertex : Pt)
    (openPaths : List (ℕ × Pt)) (branches : List ℕ) : Option ℕ × List (ℕ × Pt) :=
  selectCandidateGo bf edgeLen visited vertex branches none 0 openPaths

/-- The `while True` loop of `_join_branches`: select a candidate,
mark it visited, splice its coordinates onto the running line with the
orientation fixups of the source, and advance to the new tail vertex.
`fuel` bounds the recursion (each iteration visits a fresh edge, so any
fuel at least the number of edges suffices); `none` means it ran out. -/
def joinBranchesGo {Poly : Type} (env : Env Poly) (startVertex : Pt) :
    ℕ → Pt → PState Poly → List Pt → Option (PState Poly × List Pt)
  | 0, _, _, _ => none
  | fuel + 1, vertex, st, lineCoords =>
    let branches := env.vertexToEdges vertex
    let sel := selectCandidate BREADTH_FIRST env.edgeLen st.visitedEdges vertex
                 st.openPaths branches
    let st1 := { st with openPaths := sel.2 }
    match sel.1 with
    | none => some (st1, lineCoords)
    | some c =>
      let st2 := { st1 with visitedEdges := st1.visitedEdges ++ [c] }
      let edgeCoords := env.edges c
      let lineCoords2 :=
        if lineCoords = [] then
          if startVertex ≠ edgeCoords.headD ptZero then edgeCoords.reverse
          else edgeCoords
        else
          let ec :=
            if lineCoords.getLastD ptZero = edgeCoords.getLastD ptZero then
              edgeCoords.reverse
            else edgeCoords
          lineCoords ++ ec
      joinBranchesGo env startVertex fuel (lineCoords2.getLastD ptZero) st2 lineCoords2

/-- `_join_branches(start_vertex)`: walk the spine accumulating a
combined edge, then collapse duplicate points (`None` = empty result,
which the driver treats as "no work here"). -/
def joinBranches {Poly : Type} (env : Env Poly) (jfuel : ℕ) (startVertex : Pt)
    (st : PState Poly) : Option (PState Poly × Option (List Pt)) :=
  match joinBranchesGo env startVertex jfuel startVertex st [] with
  | none => none
  | some (st1, lineCoords) => some (st1, colapseDupePoints lineCoords)

/-- The scan of `_choose_next_path` over the purged `open_paths`,
keeping the first entry strictly closest to `current_pos`
(`shortest` initialised to `max_dist + 1`). -/
def chooseScan {Poly : Type} (env : Env Poly) (cp : Pt) :
    List (ℕ × Pt) → ℚ → Option (ℕ × Pt) → Option (ℕ × Pt)
  | [], _, best => best
  | (e, v) :: rest, shortest, best =>
    let d := env.dist v cp
    match best with
    | none => chooseScan env cp rest d (some (e, v))
    | some b =>
      if d < shortest then chooseScan env cp rest d (some (e, v))
      else chooseScan env cp rest shortest (some b)

/-- `_choose_next_path(current_pos)` on `(visited, open_paths)`:
purge visited edges, return the closest remaining vertex (the first one
when `current_pos` is `None` — the source `break`s immediately), and pop
the chosen edge. -/
def chooseNextPath {Poly : Type} (env : Env Poly) (visited : List ℕ)
    (openPaths : List (ℕ × Pt)) (currentPos : Option Pt) :
    Option Pt × List (ℕ × Pt) :=
  let purged := openPaths.filter (fun p => decide (p.1 ∉ visited))
  match purged with
  | [] => (none, purged)
  | (e0, v0) :: rest =>
    match currentPos with
    | none => (some v0, purged.filter (fun p => decide (p.1 ≠ e0)))
    | some cp =>
      match chooseScan env cp purged (env.maxDist + 1) none with
      | none => (none, purged)
      | some (e, v) => (some v, purged.filter (fun p => decide (p.1 ≠ e)))

/-- `_choose_next_path` at the state level: it also resets
`self.last_circle = None`. -/
def chooseNextPathSt {Poly : Type} (env : Env Poly) (st : PState Poly)
    (currentPos : Option Pt) : Option Pt × PState Poly :=
  let r := chooseNextPath env st.visitedEdges st.openPaths currentPos
  (r.1, { st with openPaths := r.2, lastCircle := none })

/-- The inner loop of `get_arcs` along one combined edge
(`while abs(dist - combined_edge.length) > self.step / 20 and stuck_count > 0`).
The `if dist < best_dist and False` stuck-halving branch of the source
is dead code (see `updateBestDist`), so `stuck_count` always decrements
by exactly one; the decrement is the structural fuel here. -/
def innerLoop {Poly : Type} (env : Env Poly) (ctx : EdgeCtx) :
    ℕ → ℚ → ℚ → PState Poly → PState Poly × ℚ
  | 0, dist, _, st => (st, dist)
  | sc + 1, dist, bestDist, st =>
    if |dist - ctx.length| > env.step / 20 then
      let r := calcArc env ctx st dist bestDist
      let bestDist2 := updateBestDist bestDist r.1.1
      let st2 := queueArcs env r.2 r.1.2
      innerLoop env ctx sc r.1.1 bestDist2 st2
    else (st, dist)

/-- The outer `while start_vertex is not None` loop of `get_arcs`
(cooperative yielding and debug logging omitted: they do not touch the
modelled state).  `fuel` bounds the number of outer iterations; `none`
means it ran out before the plan terminated. -/
def getArcsOuter {Poly : Type} (env : Env Poly) (jfuel : ℕ) :
    ℕ → Option Pt → PState Poly → Option (PState Poly)
  | _, none, st => some st
  | 0, some _, _ => none
  | fuel + 1, some v, st =>
    match joinBranches env jfuel v st with
    | none => none
    | some (st1, none) =>
      let r := chooseNextPathSt env st1 none
      getArcsOuter env jfuel fuel r.1 r.2
    | some (st1, some edge) =>
      let ctx := env.edgeCtxOf edge
      let stuck := (Int.floor (ctx.length * 10 / env.step + 10)).toNat
      let r1 := innerLoop env ctx stuck 0 0 st1
      let r2 := chooseNextPathSt env r1.1 (some (edge.getLastD ptZero))
      let st4 := flushArcQueues env r2.2
      getArcsOuter env jfuel fuel r2.1 st4

/-- Closed form of `complete_arc` for winding CW (the path is never
reversed in that case — see `completeArc_cw_eq`).  A proof-side normal
form, proven equal to the translated `completeArc`. -/
def completeCW {Poly : Type} (env : Env Poly) (a : ArcData) : ArcData :=
  { origin := a.origin,
    radius := some (radiusOf env a a.path),
    startPt := some (a.path.headD ptZero),
    endPt := some (a.path.getLastD ptZero),
    startAngle := some (env.angle a.origin (a.path.headD ptZero)),
    spanAngle := some
      (if pymod (env.angle a.origin (a.path.getLastD ptZero)
            - env.angle a.origin (a.path.headD ptZero)) env.twoPi = 0
       then env.twoPi
       else pymod (env.angle a.origin (a.path.getLastD ptZero)
            - env.angle a.origin (a.path.headD ptZero)) env.twoPi),
    windingDir := some ArcDir.CW,
    path := a.path,
    debug := a.debug }

/-! ### Spec-side definitions

`specSameSign` renders the spec's phrase "have the same sign as the
desired winding" (positive for CW, negative for CCW); it is used only to
state claims, never to model the code. -/

/-- The spec's "same sign as the desired winding": positive for CW,
negative for CCW. -/
def specSameSign (x : ℚ) : ArcDir → Prop
  | ArcDir.CW => 0 < x
  | ArcDir.CCW => x < 0
  | ArcDir.Closest => False

instance instDecSpecSameSign (x : ℚ) (w : ArcDir) : Decidable (specSameSign x w) :=
  match w with
  | ArcDir.CW => inferInstanceAs (Decidable (0 < x))
  | ArcDir.CCW => inferInstanceAs (Decidable (x < 0))
  | ArcDir.Closest => inferInstanceAs (Decidable False)

/-- Claim C1 as stated: the path is reversed (and start/end swapped)
exactly when `ds` and `de` do not both have the same sign as the desired
winding. -/
def claimC1 : Prop :=
  ∀ (env : Env Unit) (a : ArcData) (w : ArcDir) (b : ArcData),
    0 < env.twoPi → env.pathLen a.path ≠ 0 → completeArc env a w = some b →
    (b.path = a.path.reverse ↔
      ¬ (specSameSign (dsOf env a) w ∧ specSameSign (deOf env a) w))

/-- Claim C3 as stated: every completed arc has positive radius,
`|span_angle| ∈ (0, 2π]`, and the sign of `span_angle` matches the
winding (positive for CW, negative for CCW), the full-circle case being
replaced by `±2π` according to the winding. -/
def claimC3 : Prop :=
  ∀ (env : Env Unit) (a : ArcData) (w : ArcDir) (b : ArcData) (s r0 : ℚ),
    0 < env.twoPi → a.radius = some r0 → 0 < r0 → env.pathLen a.path ≠ 0 →
    (w = ArcDir.CW ∨ w = ArcDir.CCW) → completeArc env a w = some b →
    b.spanAngle = some s →
    (∀ r, b.radius = some r → 0 < r) ∧
    (0 < s ∧ s ≤ env.twoPi ∨ (-env.twoPi < s ∧ s < 0)) ∧
    (w = ArcDir.CW → 0 < s) ∧ (w = ArcDir.CCW → s < 0)

/-- Claim C5 as stated: after each fitter call the driver updates
`best_dist` to `max(best_dist, dist)`. -/
def claimC5 : Prop :=
  ∀ bestDist dist : ℚ, updateBestDist bestDist dist = max bestDist dist

/-- Claim C9 as stated: `complete_arc` is idempotent for both windings
on arcs with a path of nonzero length. -/
def claimC9 : Prop :=
  ∀ (env : Env Unit) (a : ArcData) (w : ArcDir),
    0 < env.twoPi → env.pathLen a.path ≠ 0 → (w = ArcDir.CW ∨ w = ArcDir.CCW) →
    (completeArc env a w).bind (fun b => completeArc env b w) = completeArc env a w

/-! ### Concrete oracle instances

Used by counterexamples and witnesses.  `twoPi = 7` stands for the real
2π (only positivity matters to the modelled control flow); `angle`
returns the x coordinate, `interpMid` the middle list entry — concrete
instantiations of the abstract `atan2` / `interpolate` oracles. -/

/-- A concrete oracle environment over the trivial polygon type. -/
def envBase : Env Unit :=
  { step := 1, windingDir := ArcDir.CW, twoPi := 7, maxDist := 1,
    angle := fun _ p => p.1,
    interpMid := fun l => l.getD 1 ptZero,
    dist := fun _ _ => 1,
    pathDist := fun _ _ => 1,
    pathLen := fun _ => 1,
    hausdorff := fun _ _ => 7,
    distPolyPt := fun _ _ => 0,
    polyUnion := fun _ _ => (),
    bufferHalf := fun _ => (),
    polyOfPath := fun _ => (),
    circlePath := fun _ _ => [(0, 0), (1, 0), (0, 1)],
    diffFrags := fun _ _ _ => [[(0, 0), (5, 0), (9, 0)]],
    inDilatedBoundary := fun _ => false,
    joinArcs := fun _ _ => [],
    edges := fun _ => [],
    edgeLen := fun _ => 0,
    vertexToEdges := fun _ => [],
    edgeCtxOf := fun _ => { length := 1000, arcAt := fun _ => ((0, 0), 10) } }

/-- `envBase` with every path reported as zero length. -/
def envZero : Env Unit := { envBase with pathLen := fun _ => 0 }

/-- An empty planner state over the trivial polygon type. -/
def stU : PState Unit :=
  { cutArea := (), cutArea2 := (), lastCircle := none, lastArc := none,
    path := [], pendingArcQueues := [], visitedEdges := [], openPaths := [] }

/-- Fragment whose start and mid share one angle (`ds = 0`) under
`envBase`. -/
def aC1 : ArcData := { arcDefault with path := [(0, 0), (0, 1), (1, 0)] }

/-- What `complete_arc` returns on `aC1` with winding CW under
`envBase`. -/
def bC1 : ArcData :=
  { origin := (0, 0), radius := some 1, startPt := some (0, 0),
    endPt := some (1, 0), startAngle := some 0, spanAngle := some 1,
    windingDir := some ArcDir.CW, path := [(0, 0), (0, 1), (1, 0)],
    debug := none }

/-- A full-circle fragment (start and end at the same angle) under
`envBase`. -/
def aC3 : ArcData :=
  { arcDefault with path := [(0, 0), (1, 0), (0, 0)], radius := some 2 }

/-- What `complete_arc` returns on `aC3` with winding CCW under
`envBase`: `span_angle = +2π` despite the CCW winding. -/
def bC3 : ArcData :=
  { origin := (0, 0), radius := some 2, startPt := some (0, 0),
    endPt := some (0, 0), startAngle := some 0, spanAngle := some 7,
    windingDir := some ArcDir.CCW, path := [(0, 0), (1, 0), (0, 0)],
    debug := none }

/-- A generic fragment (angles 0, 1, 2 under `envBase`): a CCW request
reverses it. -/
def aC9 : ArcData := { arcDefault with path := [(0, 0), (1, 1), (2, 0)] }

/-- Per-edge oracle for the C2 demonstration: a long edge whose
tangent circle always has radius 10. -/
def ctxC2 : EdgeCtx := { length := 1000, arcAt := fun _ => ((0, 0), 10) }

/-- Planner state for the C2 demonstration: a previous circle of radius
5 exists, so spacing is measured against it.  Under `envBase` every
proposal then reports a spacing of `|7 - 5| = 2` against a desired step
of 1, and the controller walks backwards by `0.76` per iteration. -/
def stC2 : PState Unit := { stU with lastCircle := some (createCircle envBase (0, 0) 5) }

/-- The loop state `_calculate_arc` seeds for
`start_distance = 0` on `ctxC2` (`distance = 0 + min(step, 1000)`). -/
def fitInitC2 : FitSt :=
  { count := 0, distance := 1, progress := 0, bestProgress := 0,
    bestDistance := 0, colorOveride := none, circle := none, arcs := [] }

/-- The fragment `arcs_from_circle_diff` yields in the C2 demonstration. -/
def fragC2 : ArcData := createArcFromPath (0, 0) [(0, 0), (5, 0), (9, 0)] 10 none

/-- Where the fitter loop of the C2 demonstration ends: all 51 loop
entries used (`count = 51`, not 50), the cursor far below
`min_distance`, no best fit ever recorded. -/
def fitFinalC2 : FitSt :=
  { count := 51, distance := -944/25, progress := 2, bestProgress := 0,
    bestDistance := 0, colorOveride := none, circle := some ((0, 0), 10),
    arcs := [fragC2] }

/-- Branch lengths `[5, 3, 4]` for the C4 demonstration. -/
def lensC4 : ℕ → ℚ := fun n => [(5 : ℚ), 3, 4].getD n 0

/-- A concrete oracle environment whose polygons are finite sets of
markers (lists of naturals) and whose union is concatenation — a model
in which "contains the previous region" is list inclusion. -/
def envL : Env (List ℕ) :=
  { step := 1, windingDir := ArcDir.CW, twoPi := 7, maxDist := 1,
    angle := fun _ p => p.1,
    interpMid := fun l => l.getD 1 ptZero,
    dist := fun _ _ => 1,
    pathDist := fun _ _ => 1,
    pathLen := fun _ => 1,
    hausdorff := fun _ _ => 7,
    distPolyPt := fun _ _ => 0,
    polyUnion := fun a b => a ++ b,
    bufferHalf := fun _ => [1],
    polyOfPath := fun _ => [2],
    circlePath := fun _ _ => [(0, 0), (1, 0), (0, 1)],
    diffFrags := fun _ _ _ => [[(0, 0), (5, 0), (9, 0)]],
    inDilatedBoundary := fun _ => false,
    joinArcs := fun _ _ => [],
    edges := fun _ => [],
    edgeLen := fun _ => 0,
    vertexToEdges := fun _ => [],
    edgeCtxOf := fun _ => { length := 1000, arcAt := fun _ => ((0, 0), 10) } }

/-- A planner state over `envL` with one pending queue. -/
def stL : PState (List ℕ) :=
  { cutArea := [0], cutArea2 := [0], lastCircle := none, lastArc := none,
    path := [], pendingArcQueues := [[fragC2]], visitedEdges := [],
    openPaths := [] }

/-! ## General lemmas -/

/-- Python's `%` with a positive modulus is nonnegative. -/
theorem pymod_nonneg (a m : ℚ) (hm : 0 < m) : 0 ≤ pymod a m := by
  have h1 : ((Int.floor (a / m) : ℤ) : ℚ) ≤ a / m := Int.floor_le _
  have h2 : m * ((Int.floor (a / m) : ℤ) : ℚ) ≤ m * (a / m) :=
    mul_le_mul_of_nonneg_left h1 hm.le
  have h3 : m * (a / m) = a := by field_simp
  unfold pymod
  linarith

/-- Python's `%` with a positive modulus is below the modulus. -/
theorem pymod_lt (a m : ℚ) (hm : 0 < m) : pymod a m < m := by
  have h1 : a / m < ((Int.floor (a / m) : ℤ) : ℚ) + 1 := Int.lt_floor_add_one _
  have h2 : m * (a / m) < m * (((Int.floor (a / m) : ℤ) : ℚ) + 1) :=
    (mul_lt_mul_left hm).mpr h1
  have h3 : m * (a / m) = a := by field_simp
  have h4 : m * (((Int.floor (a / m) : ℤ) : ℚ) + 1)
      = m * ((Int.floor (a / m) : ℤ) : ℚ) + m := by ring
  unfold pymod
  linarith

/-- `ds` is never negative (Python `%` semantics). -/
theorem dsOf_nonneg {Poly : Type} (env : Env Poly) (a : ArcData)
    (h : 0 < env.twoPi) : 0 ≤ dsOf env a :=
  pymod_nonneg _ _ h

/-- `de` is never negative (Python `%` semantics). -/
theorem deOf_nonneg {Poly : Type} (env : Env Poly) (a : ArcData)
    (h : 0 < env.twoPi) : 0 ≤ deOf env a :=
  pymod_nonneg _ _ h

/-- With a positive modulus the `ds < 0 and de < 0 and CW` disjunct of the
reversal test is dead, so the test reduces to its CCW disjunct. -/
theorem needsReverse_eq {Poly : Type} (env : Env Poly) (a : ArcData) (w : ArcDir)
    (h : 0 < env.twoPi) :
    needsReverse env a w
      = decide (0 < dsOf env a ∧ 0 < deOf env a ∧ w = ArcDir.CCW) := by
  have h1 : ¬ dsOf env a < 0 := not_lt.mpr (dsOf_nonneg env a h)
  unfold needsReverse
  rw [decide_eq_decide]
  constructor
  · rintro (h2 | h2)
    · exact h2
    · exact absurd h2.1 h1
  · exact Or.inl

/-- Feeding the radius produced by `radiusOf` back through the Python
`or`-fallback returns it unchanged. -/
theorem radiusOf_idem {Poly : Type} (env : Env Poly) (a : ArcData) (p : List Pt) :
    (if radiusOf env a p = 0 then env.dist a.origin (p.headD ptZero)
     else radiusOf env a p) = radiusOf env a p := by
  rcases ha : a.radius with _ | r
  · simp only [radiusOf, ha]
    exact ite_self _
  · by_cases hr : r = 0
    · simp only [radiusOf, ha, if_pos hr]
      exact ite_self _
    · simp [radiusOf, ha, hr]

/-- `complete_arc` on winding CW computed in closed form: the path is
never reversed. -/
theorem completeArc_cw_eq {Poly : Type} (env : Env Poly) (a : ArcData)
    (h2pi : 0 < env.twoPi) (hlen : ¬ env.pathLen a.path = 0) :
    completeArc env a ArcDir.CW = some (completeCW env a) := by
  have hrev : needsReverse env a ArcDir.CW = false := by
    rw [needsReverse_eq env a _ h2pi]
    simp
  unfold completeArc completeCW
  rw [if_neg hlen]
  simp [spanRaw, hrev]

/-- The closed form is a fixed point: all fields are recomputed from the
unchanged path, and the Python `or`-fallback returns a stored radius
unchanged. -/
theorem completeCW_idem {Poly : Type} (env : Env Poly) (a : ArcData) :
    completeCW env (completeCW env a) = completeCW env a := by
  unfold completeCW
  simp only [ArcData.mk.injEq, Option.some.injEq, and_true, true_and]
  simp only [radiusOf]
  exact radiusOf_idem env a a.path

/-- The CW span after the zero-fixup lies in `(0, m]`. -/
theorem spanFix_pos_le (m x : ℚ) (hm : 0 < m) :
    0 < (if pymod x m = 0 then m else pymod x m)
      ∧ (if pymod x m = 0 then m else pymod x m) ≤ m := by
  by_cases h : pymod x m = 0
  · rw [if_pos h]
    exact ⟨hm, le_refl m⟩
  · rw [if_neg h]
    exact ⟨lt_of_le_of_ne (pymod_nonneg x m hm) (Ne.symm h), (pymod_lt x m hm).le⟩

/-- The CCW span after the zero-fixup is either `+m` (full circle) or
lies in `(-m, 0)`. -/
theorem spanFixNeg_cases (m y : ℚ) (hm : 0 < m) :
    ((if -(pymod y m) = 0 then m else -(pymod y m)) = m) ∨
    (-m < (if -(pymod y m) = 0 then m else -(pymod y m))
      ∧ (if -(pymod y m) = 0 then m else -(pymod y m)) < 0) := by
  by_cases h : -(pymod y m) = 0
  · left
    rw [if_pos h]
  · right
    rw [if_neg h]
    have h1 : pymod y m ≠ 0 := fun hc => h (by rw [hc, neg_zero])
    have h2 : 0 < pymod y m := lt_of_le_of_ne (pymod_nonneg y m hm) (Ne.symm h1)
    have h3 : pymod y m < m := pymod_lt y m hm
    constructor
    · linarith
    · linarith

/-! ## Claim C5 -/

/-- C5 counterexample: the driver does not update `best_dist` to
`max(best_dist, dist)` — at `best_dist = 5`, `dist = 3` the source
assigns `3`, not `5` (`if dist < best_dist and False` never fires). -/
theorem claimC5_counterexample : ¬ claimC5 := by
  intro h
  exact absurd (h 5 3) (by with_unfolding_all decide)

/-- C5 (amended): the `and False` guard makes the else branch
unconditional, so `best_dist` is simply assigned the distance the fitter
returned; the `min_distance` floor is therefore not enforced to be
monotone by this update. -/
theorem updateBestDist_assigns (bestDist dist : ℚ) :
    updateBestDist bestDist dist = dist := by
  simp [updateBestDist]

/-! ## Claim C10 -/

/-- C10: on a zero-length path `complete_arc` returns `None` and
`_arcs_to_path` skips the fragment entirely: no path element, no join
lines, `last_arc` and `cut_area_total2` (indeed the whole state)
unchanged. -/
theorem completeArc_zero_skip {Poly : Type} (env : Env Poly) (st : PState Poly)
    (a : ArcData) (w : ArcDir) (h : env.pathLen a.path = 0) :
    completeArc env a w = none ∧ arcsToPathStep env st a = st := by
  have h1 : ∀ w2, completeArc env a w2 = none := by
    intro w2
    unfold completeArc
    rw [if_pos h]
  refine ⟨h1 w, ?_⟩
  simp only [arcsToPathStep, h1]

/-- C10 witness at a concrete zero-length oracle and fragment. -/
theorem completeArc_zero_skip_witness :
    completeArc envZero aC1 ArcDir.CW = none ∧ arcsToPathStep envZero stU aC1 = stU :=
  completeArc_zero_skip envZero stU aC1 ArcDir.CW (by with_unfolding_all rfl)

/-! ## Claim C1 -/

/-- C1 counterexample: with `ds = 0`, `de = 6` (so `ds` does not "have
the same sign as CW") and winding CW, the claim demands a reversal but
`complete_arc` leaves the path unchanged: the stated equivalence fails
at `envBase`/`aC1`. -/
theorem claimC1_counterexample : ¬ claimC1 := by
  intro h
  have hb : completeArc envBase aC1 ArcDir.CW = some bC1 := by
    with_unfolding_all rfl
  have h2 := h envBase aC1 ArcDir.CW bC1 (by with_unfolding_all decide)
    (by with_unfolding_all decide) hb
  have h3 : bC1.path = aC1.path.reverse := h2.mpr (by with_unfolding_all decide)
  exact absurd h3 (by with_unfolding_all decide)

/-- C1 (amended): since Python's `%` never returns a negative value, the
`ds < 0 and de < 0 and CW` branch is dead; the returned path is the
input path reversed exactly when the winding is CCW and both `ds` and
`de` are strictly positive, and a CW fragment is never reversed. -/
theorem completeArc_reverse_char {Poly : Type} (env : Env Poly) (a : ArcData)
    (w : ArcDir) (h2pi : 0 < env.twoPi) (hlen : env.pathLen a.path ≠ 0)
    (hw : w ≠ ArcDir.Closest) :
    (completeArc env a w).map ArcData.path
        = some (if 0 < dsOf env a ∧ 0 < deOf env a ∧ w = ArcDir.CCW
                then a.path.reverse else a.path)
      ∧ (w = ArcDir.CW → (completeArc env a w).map ArcData.path = some a.path) := by
  cases w with
  | Closest => exact absurd rfl hw
  | CW =>
    have hrev : needsReverse env a ArcDir.CW = false := by
      rw [needsReverse_eq env a _ h2pi]
      simp
    constructor
    · unfold completeArc
      rw [if_neg hlen]
      simp [spanRaw, hrev]
    · intro _
      unfold completeArc
      rw [if_neg hlen]
      simp [spanRaw, hrev]
  | CCW =>
    have hrev : needsReverse env a ArcDir.CCW
        = decide (0 < dsOf env a ∧ 0 < deOf env a) := by
      rw [needsReverse_eq env a _ h2pi]
      simp
    refine ⟨?_, fun hcc => nomatch hcc⟩
    by_cases hP : 0 < dsOf env a ∧ 0 < deOf env a
    · unfold completeArc
      rw [if_neg hlen]
      simp [spanRaw, hrev, hP]
    · unfold completeArc
      rw [if_neg hlen]
      simp [spanRaw, hrev, hP]

/-- C1 amended-claim witness: a concrete CCW fragment with
`ds, de > 0` is reversed. -/
theorem completeArc_reverse_char_witness :
    (completeArc envBase aC9 ArcDir.CCW).map ArcData.path
        = some (if 0 < dsOf envBase aC9 ∧ 0 < deOf envBase aC9 ∧ ArcDir.CCW = ArcDir.CCW
                then aC9.path.reverse else aC9.path)
      ∧ (ArcDir.CCW = ArcDir.CW →
          (completeArc envBase aC9 ArcDir.CCW).map ArcData.path = some aC9.path) :=
  completeArc_reverse_char envBase aC9 ArcDir.CCW (by with_unfolding_all decide)
    (by with_unfolding_all decide) (by with_unfolding_all decide)

/-! ## Claim C3 -/

/-- C3 counterexample: a CCW full circle (start and end at the same
angle) gets `span_angle = +2π` — the source replaces a zero modulo
result by `2 * math.pi` regardless of winding — so the sign of
`span_angle` does not match the CCW winding. -/
theorem claimC3_counterexample : ¬ claimC3 := by
  intro h
  have hb : completeArc envBase aC3 ArcDir.CCW = some bC3 := by
    with_unfolding_all rfl
  have h2 := h envBase aC3 ArcDir.CCW bC3 7 2 (by with_unfolding_all decide)
    (by with_unfolding_all rfl) (by with_unfolding_all decide)
    (by with_unfolding_all decide) (Or.inr rfl) hb (by with_unfolding_all rfl)
  have h3 : (7 : ℚ) < 0 := h2.2.2.2 rfl
  exact absurd h3 (by with_unfolding_all decide)

/-- C3 (amended): every completed arc keeps its positive fragment
radius, and `|span_angle| ∈ (0, 2π]` with the sign matching the winding
for CW always, and for CCW except the full-circle case, where the zero
modulo result is replaced by `+2π` regardless of winding. -/
theorem completeArc_span_bounds {Poly : Type} (env : Env Poly) (a : ArcData)
    (w : ArcDir) (r0 : ℚ) (h2pi : 0 < env.twoPi) (hr : a.radius = some r0)
    (hr0 : 0 < r0) (hlen : env.pathLen a.path ≠ 0)
    (hw : w = ArcDir.CW ∨ w = ArcDir.CCW) :
    (completeArc env a w).map ArcData.radius = some (some r0) ∧
    ∃ s, (completeArc env a w).map ArcData.spanAngle = some (some s) ∧
      (0 < s ∧ s ≤ env.twoPi ∨ (-env.twoPi < s ∧ s < 0)) ∧
      (w = ArcDir.CW → 0 < s ∧ s ≤ env.twoPi) ∧
      (w = ArcDir.CCW → (-env.twoPi < s ∧ s < 0) ∨ s = env.twoPi) := by
  have hrad : ∀ p : List Pt, radiusOf env a p = r0 := by
    intro p
    simp [radiusOf, hr, hr0.ne.symm]
  rcases hw with hw | hw
  · subst hw
    cases hrev : needsReverse env a ArcDir.CW
    all_goals
      unfold completeArc
      rw [if_neg hlen]
      simp only [spanRaw, hrev, Bool.false_eq_true, Bool.true_eq_false, ite_false,
        ite_true, if_false, if_true, Option.map_some']
      constructor
      · simp [hrad]
      · refine ⟨_, rfl, ?_, ?_, ?_⟩
        · exact Or.inl (spanFix_pos_le env.twoPi _ h2pi)
        · intro _
          exact spanFix_pos_le env.twoPi _ h2pi
        · intro hcc
          exact absurd hcc (by simp)
  · subst hw
    cases hrev : needsReverse env a ArcDir.CCW
    all_goals
      unfold completeArc
      rw [if_neg hlen]
      simp only [spanRaw, hrev, Bool.false_eq_true, Bool.true_eq_false, ite_false,
        ite_true, if_false, if_true, Option.map_some']
      constructor
      · simp [hrad]
      · refine ⟨_, rfl, ?_, ?_, ?_⟩
        · rcases spanFixNeg_cases env.twoPi _ h2pi with h | h
          · rw [h]
            exact Or.inl ⟨h2pi, le_refl _⟩
          · exact Or.inr h
        · intro hcw
          exact absurd hcw (by simp)
        · intro _
          rcases spanFixNeg_cases env.twoPi _ h2pi with h | h
          · exact Or.inr h
          · exact Or.inl h

/-- C3 amended-claim witness at the concrete CCW full circle. -/
theorem completeArc_span_bounds_witness :
    (completeArc envBase aC3 ArcDir.CCW).map ArcData.radius = some (some 2) ∧
    ∃ s, (completeArc envBase aC3 ArcDir.CCW).map ArcData.spanAngle = some (some s) ∧
      (0 < s ∧ s ≤ envBase.twoPi ∨ (-envBase.twoPi < s ∧ s < 0)) ∧
      (ArcDir.CCW = ArcDir.CW → 0 < s ∧ s ≤ envBase.twoPi) ∧
      (ArcDir.CCW = ArcDir.CCW →
        (-envBase.twoPi < s ∧ s < 0) ∨ s = envBase.twoPi) :=
  completeArc_span_bounds envBase aC3 ArcDir.CCW 2 (by with_unfolding_all decide)
    (by with_unfolding_all rfl) (by with_unfolding_all decide)
    (by with_unfolding_all decide) (Or.inr rfl)

/-! ## Claim C9 -/

/-- C9 counterexample: with winding CCW a fragment with `ds, de > 0` is
reversed on the first call and reversed back on the second, so applying
`complete_arc` twice does not equal applying it once (start/end, angles
and span differ as well). -/
theorem claimC9_counterexample : ¬ claimC9 := by
  intro h
  have h2 := h envBase aC9 ArcDir.CCW (by with_unfolding_all decide)
    (by with_unfolding_all decide) (Or.inr rfl)
  exact absurd h2 (by with_unfolding_all decide)

/-- C9 (amended): `complete_arc` is idempotent for winding CW (where the
path is never reversed); for CCW a second application undoes the
reversal, so idempotence fails in general. -/
theorem completeArc_idem_cw {Poly : Type} (env : Env Poly) (a : ArcData)
    (h2pi : 0 < env.twoPi) :
    (completeArc env a ArcDir.CW).bind (fun b => completeArc env b ArcDir.CW)
      = completeArc env a ArcDir.CW := by
  by_cases hlen : env.pathLen a.path = 0
  · have h0 : completeArc env a ArcDir.CW = none := by
      unfold completeArc
      rw [if_pos hlen]
    rw [h0]
    rfl
  · rw [completeArc_cw_eq env a h2pi hlen]
    have hbind : (some (completeCW env a)).bind (fun b => completeArc env b ArcDir.CW)
        = completeArc env (completeCW env a) ArcDir.CW := rfl
    rw [hbind, completeArc_cw_eq env (completeCW env a) h2pi hlen, completeCW_idem]

/-- C9 amended-claim witness at a concrete CW fragment. -/
theorem completeArc_idem_cw_witness :
    (completeArc envBase aC9 ArcDir.CW).bind (fun b => completeArc envBase b ArcDir.CW)
      = completeArc envBase aC9 ArcDir.CW :=
  completeArc_idem_cw envBase aC9 (by with_unfolding_all decide)

/-! ## Claim C2 -/

set_option maxRecDepth 100000 in
/-- C2: evaluating `_calculate_arc` where the controller drifts backwards
and never fits.  The loop's `while count <= ITERATION_COUNT` runs its
body 51 times and leaves `count = 51`, so the `if count ==
ITERATION_COUNT` exhaustion handler — which the claim describes — is
skipped: although the settled distance `-944/25` is far below
`min_distance = 1/2`, the call does not return `(edge.length, [])`; it
rebuilds at `best_distance = 0` and returns an arc carrying no
"unconverged" debug tag. -/
theorem calcArc_exhaust_demo :
    fitLoopGo envBase ctxC2 () stC2.lastCircle 0 (ITERATION_COUNT + 2) fitInitC2
        = FitOut.finished fitFinalC2
      ∧ fitFinalC2.count = 51
      ∧ fitFinalC2.count ≠ ITERATION_COUNT
      ∧ fitFinalC2.distance < 1 / 2
      ∧ (calcArc envBase ctxC2 stC2 0 (1 / 2)).1 = (0, [fragC2])
      ∧ fragC2.debug = none := by
  with_unfolding_all decide

/-! ## Claim C4 -/

/-- For the shipped `BREADTH_FIRST = false` policy the selection loop
does return a longest unvisited branch (lengths are nonnegative in the
source, being shapely lengths); stated over the loop accumulators. -/
theorem selectCandidateGo_longest (edgeLen : ℕ → ℚ) (visited : List ℕ)
    (vertex : Pt) :
    ∀ (branches : List ℕ) (cand : Option ℕ) (longest : ℚ)
      (op : List (ℕ × Pt)),
      (∀ b ∈ branches, b ∉ visited → 0 ≤ edgeLen b) →
      (∀ c0, cand = some c0 → edgeLen c0 = longest) →
      (cand = none → longest = 0) →
      0 ≤ longest →
      ∀ c, (selectCandidateGo false edgeLen visited vertex branches cand
              longest op).1 = some c →
        longest ≤ edgeLen c
          ∧ ∀ b ∈ branches, b ∉ visited → edgeLen b ≤ edgeLen c := by
  intro branches
  induction branches with
  | nil =>
    intro cand longest op hnn hs hn hl c hres
    refine ⟨(hs c hres).symm.le, ?_⟩
    intro b hb
    exact absurd hb (List.not_mem_nil b)
  | cons br rest ih =>
    intro cand longest op hnn hs hn hl c hres
    by_cases hbr : br ∈ visited
    · rw [show selectCandidateGo false edgeLen visited vertex (br :: rest)
            cand longest op
          = selectCandidateGo false edgeLen visited vertex rest cand longest op
        from by simp only [selectCandidateGo, if_pos hbr]] at hres
      have hrest := ih cand longest op
        (fun b hb hbv => hnn b (List.mem_cons_of_mem br hb) hbv) hs hn hl c hres
      refine ⟨hrest.1, ?_⟩
      intro b hb hbv
      rcases List.mem_cons.mp hb with hb1 | hb2
      · exact absurd (hb1 ▸ hbr) hbv
      · exact hrest.2 b hb2 hbv
    · have hbrnn : 0 ≤ edgeLen br := hnn br (List.mem_cons_self br rest) hbr
      simp only [selectCandidateGo, if_neg hbr] at hres
      simp only [Bool.false_eq_true, false_and, if_false, and_true, true_and,
        ite_false, ite_true] at hres
      have hmaxnn : 0 ≤ max longest (edgeLen br) := le_max_of_le_left hl
      have hrec := ih
        (if cand = none then some br
         else if edgeLen br > longest then some br else cand)
        (max longest (edgeLen br)) (upsertOpenPath op br vertex)
        (fun b hb hbv => hnn b (List.mem_cons_of_mem br hb) hbv)
        ?_ ?_ hmaxnn c ?_
      · rcases hrec with ⟨h1, h2⟩
        refine ⟨le_trans (le_max_left _ _) h1, ?_⟩
        intro b hb hbv
        rcases List.mem_cons.mp hb with hb1 | hb2
        · rw [hb1]
          exact le_trans (le_max_right longest (edgeLen br)) h1
        · exact h2 b hb2 hbv
      · intro c0 hc0
        by_cases hcand : cand = none
        · rw [if_pos hcand] at hc0
          have hbr0 : c0 = br := (Option.some.inj hc0).symm
          rw [hbr0, hn hcand]
          exact (max_eq_right hbrnn).symm
        · rw [if_neg hcand] at hc0
          by_cases hgt : edgeLen br > longest
          · rw [if_pos hgt] at hc0
            have hbr0 : c0 = br := (Option.some.inj hc0).symm
            rw [hbr0]
            exact (max_eq_right hgt.le).symm
          · rw [if_neg hgt] at hc0
            rw [hs c0 hc0]
            exact (max_eq_left (not_lt.mp hgt)).symm
      · intro hc0
        by_cases hcand : cand = none
        · rw [if_pos hcand] at hc0
          exact Option.noConfusion hc0
        · rw [if_neg hcand] at hc0
          by_cases hgt : edgeLen br > longest
          · rw [if_pos hgt] at hc0
            exact Option.noConfusion hc0
          · rw [if_neg hgt] at hc0
            exact absurd hc0 hcand
      · exact hres

/-- C4: with the shipped `BREADTH_FIRST = false` the walker does select
a longest unvisited branch (first conjunct, fully general), but with
`BREADTH_FIRST = true` it does not pick the shortest one: on branch
lengths `[5, 3, 4]` it keeps the last branch shorter than the running
maximum (branch 2, length 4) while branch 1 (length 3) is strictly
shortest. -/
theorem selectCandidate_bf_spec :
    (∀ (edgeLen : ℕ → ℚ) (visited : List ℕ) (vertex : Pt)
        (op : List (ℕ × Pt)) (branches : List ℕ) (c : ℕ),
      (∀ b ∈ branches, b ∉ visited → 0 ≤ edgeLen b) →
      (selectCandidate BREADTH_FIRST edgeLen visited vertex op branches).1
          = some c →
      ∀ b ∈ branches, b ∉ visited → edgeLen b ≤ edgeLen c)
      ∧ (selectCandidate true lensC4 [] (0, 0) [] [0, 1, 2]).1 = some 2
      ∧ lensC4 1 < lensC4 2
      ∧ (∀ i ∈ [0, 1, 2], lensC4 1 ≤ lensC4 i)
      ∧ (selectCandidate false lensC4 [] (0, 0) [] [0, 1, 2]).1 = some 0 := by
  refine ⟨?_, ?_⟩
  · intro edgeLen visited vertex op branches c hnn hres
    exact (selectCandidateGo_longest edgeLen visited vertex branches none 0 op
      hnn (fun c0 hc0 => Option.noConfusion hc0) (fun _ => rfl) (le_refl 0)
      c hres).2
  · with_unfolding_all decide

/-! ## Claim C6 -/

/-- Folding a step that only grows the state preserves growth. -/
theorem foldl_preserves {α β : Type} (f : β → α → β) (P : β → β → Prop)
    (hrefl : ∀ b, P b b) (htrans : ∀ a b c, P a b → P b c → P a c)
    (hstep : ∀ b x, P b (f b x)) : ∀ (l : List α) (b : β), P b (l.foldl f b) := by
  intro l
  induction l with
  | nil => exact fun b => hrefl b
  | cons x xs ih => exact fun b => htrans _ _ _ (hstep b x) (ih (f b x))

/-- C6: `cut_area_total` and `cut_area_total2` grow monotonically: every
planner operation — a fitter call (`_calculate_arc`), an emission
(`_arcs_to_path`), queueing (`_queue_arcs`), a queue flush
(`_flush_arc_queues`) or a whole inner-loop run — either leaves each
polygon unchanged or replaces it by `polyUnion` of itself with new
geometry.  `R` is any relation that is reflexive, transitive and
extended by the geometry library's union (for real polygons:
containment of regions). -/
theorem cutArea_monotone {Poly : Type} (env : Env Poly) (R : Poly → Poly → Prop)
    (hrefl : ∀ p, R p p) (htrans : ∀ p q r, R p q → R q r → R p r)
    (hunion : ∀ p q, R p (env.polyUnion p q)) :
    (∀ (ctx : EdgeCtx) (st : PState Poly) (d m : ℚ),
        R st.cutArea ((calcArc env ctx st d m).2).cutArea
          ∧ R st.cutArea2 ((calcArc env ctx st d m).2).cutArea2)
    ∧ (∀ (st : PState Poly) (arcs : List ArcData),
        R st.cutArea (arcsToPath env st arcs).cutArea
          ∧ R st.cutArea2 (arcsToPath env st arcs).cutArea2)
    ∧ (∀ (st : PState Poly) (newArcs : List ArcData),
        R st.cutArea (queueArcs env st newArcs).cutArea
          ∧ R st.cutArea2 (queueArcs env st newArcs).cutArea2)
    ∧ (∀ st : PState Poly,
        R st.cutArea (flushArcQueues env st).cutArea
          ∧ R st.cutArea2 (flushArcQueues env st).cutArea2)
    ∧ (∀ (ctx : EdgeCtx) (sc : ℕ) (d bd : ℚ) (st : PState Poly),
        R st.cutArea ((innerLoop env ctx sc d bd st).1).cutArea
          ∧ R st.cutArea2 ((innerLoop env ctx sc d bd st).1).cutArea2) := by
  have hstep : ∀ (st : PState Poly) (a : ArcData),
      R st.cutArea (arcsToPathStep env st a).cutArea
        ∧ R st.cutArea2 (arcsToPathStep env st a).cutArea2 := by
    intro st a
    cases hc : completeArc env a (resolveWinding env st.lastArc) with
    | none =>
      simp only [arcsToPathStep, hc]
      exact ⟨hrefl _, hrefl _⟩
    | some arc =>
      simp only [arcsToPathStep, hc]
      exact ⟨hrefl _, hunion _ _⟩
  have hpath : ∀ (st : PState Poly) (arcs : List ArcData),
      R st.cutArea (arcsToPath env st arcs).cutArea
        ∧ R st.cutArea2 (arcsToPath env st arcs).cutArea2 := by
    intro st arcs
    exact foldl_preserves (arcsToPathStep env)
      (fun s t => R s.cutArea t.cutArea ∧ R s.cutArea2 t.cutArea2)
      (fun b => ⟨hrefl _, hrefl _⟩)
      (fun a b c h1 h2 => ⟨htrans _ _ _ h1.1 h2.1, htrans _ _ _ h1.2 h2.2⟩)
      hstep arcs st
  have hcalc : ∀ (ctx : EdgeCtx) (st : PState Poly) (d m : ℚ),
      R st.cutArea ((calcArc env ctx st d m).2).cutArea
        ∧ R st.cutArea2 ((calcArc env ctx st d m).2).cutArea2 := by
    intro ctx st d m
    rcases hf : fitLoopGo env ctx st.cutArea st.lastCircle d (ITERATION_COUNT + 2)
        { count := 0, distance := d + min env.step (ctx.length - d), progress := 0,
          bestProgress := 0, bestDistance := 0, colorOveride := none, circle := none,
          arcs := [] } with ⟨d2, c⟩ | f
    · simp only [calcArc, hf]
      exact ⟨hrefl _, hrefl _⟩
    · simp only [calcArc, hf]
      split
      · exact ⟨hrefl _, hrefl _⟩
      · exact ⟨hunion _ _, hrefl _⟩
  have hqueue : ∀ (st : PState Poly) (newArcs : List ArcData),
      R st.cutArea (queueArcs env st newArcs).cutArea
        ∧ R st.cutArea2 (queueArcs env st newArcs).cutArea2 := by
    intro st newArcs
    rcases hpr : processNewArcs env st.pendingArcQueues newArcs with ⟨qs, mods⟩
    simp only [queueArcs, hpr]
    split
    · split
      · rename_i q a hq ha
        exact hpath { st with pendingArcQueues := [] } (q ++ [a])
      · exact ⟨hrefl _, hrefl _⟩
    · split
      · split
        · exact ⟨hrefl _, hrefl _⟩
        · rename_i q0 rest
          exact hpath { st with pendingArcQueues := rest } q0
      · exact ⟨hrefl _, hrefl _⟩
  have hflush : ∀ st : PState Poly,
      R st.cutArea (flushArcQueues env st).cutArea
        ∧ R st.cutArea2 (flushArcQueues env st).cutArea2 := by
    intro st
    exact foldl_preserves (fun s q => arcsToPath env s q)
      (fun s t => R s.cutArea t.cutArea ∧ R s.cutArea2 t.cutArea2)
      (fun b => ⟨hrefl _, hrefl _⟩)
      (fun a b c h1 h2 => ⟨htrans _ _ _ h1.1 h2.1, htrans _ _ _ h1.2 h2.2⟩)
      (fun b q => hpath b q) st.pendingArcQueues
      { st with pendingArcQueues := [] }
  refine ⟨hcalc, hpath, hqueue, hflush, ?_⟩
  intro ctx sc
  induction sc with
  | zero => exact fun d bd st => ⟨hrefl _, hrefl _⟩
  | succ sc ih =>
    intro d bd st
    unfold innerLoop
    split
    · have h1 := hcalc ctx st d bd
      have h2 := hqueue (calcArc env ctx st d bd).2 (calcArc env ctx st d bd).1.2
      have h3 := ih (calcArc env ctx st d bd).1.1
        (updateBestDist bd (calcArc env ctx st d bd).1.1)
        (queueArcs env (calcArc env ctx st d bd).2 (calcArc env ctx st d bd).1.2)
      exact ⟨htrans _ _ _ h1.1 (htrans _ _ _ h2.1 h3.1),
             htrans _ _ _ h1.2 (htrans _ _ _ h2.2 h3.2)⟩
    · exact ⟨hrefl _, hrefl _⟩

/-- C6 witness: a concrete flush over the marker-list polygon model,
with containment instantiated as list inclusion and union as
concatenation. -/
theorem cutArea_monotone_witness :
    stL.cutArea ⊆ (flushArcQueues envL stL).cutArea
      ∧ stL.cutArea2 ⊆ (flushArcQueues envL stL).cutArea2 :=
  (cutArea_monotone envL (fun p q => p ⊆ q) (fun p => List.Subset.refl p)
      (fun p q r h1 h2 => List.Subset.trans h1 h2)
      (fun p q => List.subset_append_left p q)).2.2.2.1 stL

/-! ## Claim C7 -/

/-- Invariant of the `_queue_arcs` scan: the running threshold only
decreases, bounds every scanned tail distance, and the running best is
either untouched (threshold unchanged) or points at a scanned queue
whose tail distance equals the threshold and beat the initial one. -/
theorem findClosestGo_spec {Poly : Type} (env : Env Poly) (a : ArcData) :
    ∀ (qs : List (List ArcData)) (i : ℕ) (cd : ℚ) (best : Option ℕ),
      (findClosestGo env a qs i cd best).1 ≤ cd
      ∧ (∀ k, k < qs.length →
          (findClosestGo env a qs i cd best).1 ≤ tailDist env a qs k)
      ∧ ((findClosestGo env a qs i cd best).2 = best
            ∧ (findClosestGo env a qs i cd best).1 = cd
         ∨ ∃ k, k < qs.length
            ∧ (findClosestGo env a qs i cd best).2 = some (i + k)
            ∧ (findClosestGo env a qs i cd best).1 = tailDist env a qs k
            ∧ (findClosestGo env a qs i cd best).1 < cd) := by
  intro qs
  induction qs with
  | nil =>
    intro i cd best
    refine ⟨le_refl _, ?_, Or.inl ⟨rfl, rfl⟩⟩
    intro k hk
    exact absurd hk (by simp)
  | cons q rest ih =>
    intro i cd best
    by_cases hd : env.pathDist a.path (q.getLastD arcDefault).path < cd
    · have heq : findClosestGo env a (q :: rest) i cd best
          = findClosestGo env a rest (i + 1)
              (env.pathDist a.path (q.getLastD arcDefault).path) (some i) := by
        simp only [findClosestGo, if_pos hd]
      rcases ih (i + 1) (env.pathDist a.path (q.getLastD arcDefault).path) (some i)
        with ⟨ih1, ih2, ih3⟩
      rw [heq]
      refine ⟨le_trans ih1 hd.le, ?_, ?_⟩
      · intro k hk
        cases k with
        | zero => exact ih1
        | succ k2 =>
          have hk2 : k2 < rest.length := by
            simpa using Nat.lt_of_succ_lt_succ hk
          simpa [tailDist] using ih2 k2 hk2
      · rcases ih3 with ⟨hb, hc⟩ | ⟨k2, hk2, hb, hc, hlt⟩
        · right
          refine ⟨0, by simp, ?_, ?_, ?_⟩
          · rw [hb, Nat.add_zero]
          · simpa [tailDist] using hc
          · rw [hc]
            exact hd
        · right
          refine ⟨k2 + 1, by simpa using Nat.succ_lt_succ hk2, ?_, ?_, ?_⟩
          · rw [hb]
            congr 1
            omega
          · simpa [tailDist] using hc
          · exact lt_trans hlt hd
    · have heq : findClosestGo env a (q :: rest) i cd best
          = findClosestGo env a rest (i + 1) cd best := by
        simp only [findClosestGo, if_neg hd]
      rcases ih (i + 1) cd best with ⟨ih1, ih2, ih3⟩
      rw [heq]
      refine ⟨ih1, ?_, ?_⟩
      · intro k hk
        cases k with
        | zero => exact le_trans ih1 (not_lt.mp hd)
        | succ k2 =>
          have hk2 : k2 < rest.length := by
            simpa using Nat.lt_of_succ_lt_succ hk
          simpa [tailDist] using ih2 k2 hk2
      · rcases ih3 with ⟨hb, hc⟩ | ⟨k2, hk2, hb, hc, hlt⟩
        · exact Or.inl ⟨hb, hc⟩
        · right
          refine ⟨k2 + 1, by simpa using Nat.succ_lt_succ hk2, ?_, ?_, ?_⟩
          · rw [hb]
            congr 1
            omega
          · simpa [tailDist] using hc
          · exact hlt

/-- The `_queue_arcs` queue search in closed form: `none` means no queue
tail lies strictly within `step`; `some j` points at a queue whose tail
distance is below `step` and minimal over all queues. -/
theorem findClosestQueue_spec {Poly : Type} (env : Env Poly) (a : ArcData)
    (queues : List (List ArcData)) :
    (findClosestQueue env a queues = none →
        ∀ k, k < queues.length → env.step ≤ tailDist env a queues k)
    ∧ (∀ j, findClosestQueue env a queues = some j →
        j < queues.length ∧ tailDist env a queues j < env.step
          ∧ ∀ k, k < queues.length →
              tailDist env a queues j ≤ tailDist env a queues k) := by
  rcases findClosestGo_spec env a queues 0 env.step none with ⟨h1, h2, h3⟩
  constructor
  · intro hn k hk
    rcases h3 with ⟨_, hc⟩ | ⟨k2, _, hb, _, _⟩
    · have := h2 k hk
      rw [hc] at this
      exact this
    · rw [findClosestQueue] at hn
      rw [hn] at hb
      exact absurd hb (by simp)
  · intro j hj
    rcases h3 with ⟨hb, _⟩ | ⟨k2, hk2, hb, hc, hlt⟩
    · rw [findClosestQueue] at hj
      rw [hj] at hb
      exact absurd hb (by simp)
    · rw [findClosestQueue] at hj
      rw [hj] at hb
      have hjk : j = k2 := by
        have := Option.some.inj hb
        omega
      subst hjk
      refine ⟨hk2, ?_, ?_⟩
      · rw [← hc]
        exact hlt
      · intro k hk
        rw [← hc]
        exact h2 k hk

/-- C7: `_queue_arcs` appends each new fragment to the pending queue
whose tail arc's path is closest to the fragment's path and strictly
within `step` (otherwise it starts a new queue at the back); after the
general placement pass, if some queue was modified but the head queue
(index 0) was not, the head queue is emitted through `_arcs_to_path` and
removed; and with exactly one existing queue and one new fragment the
fragment is appended and the head queue immediately drained. -/
theorem queueArcs_spec {Poly : Type} (env : Env Poly) (a : ArcData)
    (queues : List (List ArcData)) (st : PState Poly) (newArcs : List ArcData)
    (q0 : List ArcData) (rest : List (List ArcData)) (q : List ArcData)
    (aone : ArcData) :
    ((findClosestQueue env a queues).elim
      ((∀ k, k < queues.length → env.step ≤ tailDist env a queues k)
        ∧ placeArc env queues a = (queues ++ [[a]], queues.length))
      (fun j => j < queues.length ∧ tailDist env a queues j < env.step
        ∧ (∀ k, k < queues.length →
            tailDist env a queues j ≤ tailDist env a queues k)
        ∧ placeArc env queues a = (queues.set j (queues.getD j [] ++ [a]), j)))
    ∧ (¬ (newArcs.length = 1 ∧ st.pendingArcQueues.length = 1) →
        (processNewArcs env st.pendingArcQueues newArcs).1 = q0 :: rest →
        (processNewArcs env st.pendingArcQueues newArcs).2 ≠ [] →
        (0 : ℕ) ∉ (processNewArcs env st.pendingArcQueues newArcs).2 →
        queueArcs env st newArcs
          = arcsToPath env { st with pendingArcQueues := rest } q0)
    ∧ (st.pendingArcQueues = [q] →
        queueArcs env st [aone]
          = arcsToPath env { st with pendingArcQueues := [] } (q ++ [aone])) := by
  refine ⟨?_, ?_, ?_⟩
  · rcases hfc : findClosestQueue env a queues with _ | j
    · simp only [Option.elim]
      refine ⟨(findClosestQueue_spec env a queues).1 hfc, ?_⟩
      unfold placeArc
      rw [hfc]
    · simp only [Option.elim]
      rcases (findClosestQueue_spec env a queues).2 j hfc with ⟨hj1, hj2, hj3⟩
      refine ⟨hj1, hj2, hj3, ?_⟩
      unfold placeArc
      rw [hfc]
  · intro hfast hq hne hmem
    rcases hpr : processNewArcs env st.pendingArcQueues newArcs with ⟨qs, mods⟩
    rw [hpr] at hq hne hmem
    simp only at hq hne hmem
    subst hq
    simp only [queueArcs, hpr, if_neg hfast]
    rw [if_pos ⟨hne, hmem⟩]
  · intro hq
    simp only [queueArcs, hq]
    rw [if_pos (show [aone].length = 1 ∧ [q].length = 1 from ⟨rfl, rfl⟩)]

/-! ## Claim C8 -/

/-- Appending a fresh element preserves `Nodup`. -/
theorem nodup_append_singleton {α : Type} (l : List α) (c : α)
    (h1 : l.Nodup) (h2 : c ∉ l) : (l ++ [c]).Nodup := by
  rw [List.nodup_append]
  refine ⟨h1, List.nodup_singleton c, ?_⟩
  intro x hx hx2
  rw [List.mem_singleton] at hx2
  exact h2 (hx2 ▸ hx)

/-- `_arcs_to_path` never touches the queues, the visited set or the
open paths (one iteration). -/
theorem arcsToPathStep_frame {Poly : Type} (env : Env Poly) (st : PState Poly)
    (a : ArcData) :
    (arcsToPathStep env st a).pendingArcQueues = st.pendingArcQueues
      ∧ (arcsToPathStep env st a).visitedEdges = st.visitedEdges
      ∧ (arcsToPathStep env st a).openPaths = st.openPaths := by
  cases hc : completeArc env a (resolveWinding env st.lastArc) with
  | none => simp [arcsToPathStep, hc]
  | some arc => simp [arcsToPathStep, hc]

/-- `_arcs_to_path` never touches the queues, the visited set or the
open paths. -/
theorem arcsToPath_frame {Poly : Type} (env : Env Poly) :
    ∀ (arcs : List ArcData) (st : PState Poly),
      (arcsToPath env st arcs).pendingArcQueues = st.pendingArcQueues
        ∧ (arcsToPath env st arcs).visitedEdges = st.visitedEdges
        ∧ (arcsToPath env st arcs).openPaths = st.openPaths := by
  intro arcs
  induction arcs with
  | nil => exact fun st => ⟨rfl, rfl, rfl⟩
  | cons x xs ih =>
    intro st
    have h1 := arcsToPathStep_frame env st x
    have h2 := ih (arcsToPathStep env st x)
    exact ⟨h2.1.trans h1.1, h2.2.1.trans h1.2.1, h2.2.2.trans h1.2.2⟩

/-- `_calculate_arc` never touches the queues, the visited set or the
open paths. -/
theorem calcArc_frame {Poly : Type} (env : Env Poly) (ctx : EdgeCtx)
    (st : PState Poly) (d m : ℚ) :
    ((calcArc env ctx st d m).2).pendingArcQueues = st.pendingArcQueues
      ∧ ((calcArc env ctx st d m).2).visitedEdges = st.visitedEdges
      ∧ ((calcArc env ctx st d m).2).openPaths = st.openPaths := by
  rcases hf : fitLoopGo env ctx st.cutArea st.lastCircle d (ITERATION_COUNT + 2)
      { count := 0, distance := d + min env.step (ctx.length - d), progress := 0,
        bestProgress := 0, bestDistance := 0, colorOveride := none, circle := none,
        arcs := [] } with ⟨d2, c⟩ | f
  · simp [calcArc, hf]
  · simp only [calcArc, hf]
    split
    · simp
    · simp

/-- `_queue_arcs` never touches the visited set or the open paths. -/
theorem queueArcs_frame {Poly : Type} (env : Env Poly) (st : PState Poly)
    (newArcs : List ArcData) :
    (queueArcs env st newArcs).visitedEdges = st.visitedEdges
      ∧ (queueArcs env st newArcs).openPaths = st.openPaths := by
  rcases hpr : processNewArcs env st.pendingArcQueues newArcs with ⟨qs, mods⟩
  simp only [queueArcs, hpr]
  split
  · split
    · rename_i q a hq ha
      have h := arcsToPath_frame env (q ++ [a]) { st with pendingArcQueues := [] }
      exact ⟨h.2.1, h.2.2⟩
    · exact ⟨rfl, rfl⟩
  · split
    · split
      · exact ⟨rfl, rfl⟩
      · rename_i q0 rest
        have h := arcsToPath_frame env q0 { st with pendingArcQueues := rest }
        exact ⟨h.2.1, h.2.2⟩
    · exact ⟨rfl, rfl⟩

/-- The inner fitting loop never touches the visited set or the open
paths. -/
theorem innerLoop_frame {Poly : Type} (env : Env Poly) (ctx : EdgeCtx) :
    ∀ (sc : ℕ) (d bd : ℚ) (st : PState Poly),
      ((innerLoop env ctx sc d bd st).1).visitedEdges = st.visitedEdges
        ∧ ((innerLoop env ctx sc d bd st).1).openPaths = st.openPaths := by
  intro sc
  induction sc with
  | zero => exact fun d bd st => ⟨rfl, rfl⟩
  | succ sc ih =>
    intro d bd st
    unfold innerLoop
    split
    · have h1 := calcArc_frame env ctx st d bd
      have h2 := queueArcs_frame env (calcArc env ctx st d bd).2 (calcArc env ctx st d bd).1.2
      have h3 := ih (calcArc env ctx st d bd).1.1
        (updateBestDist bd (calcArc env ctx st d bd).1.1)
        (queueArcs env (calcArc env ctx st d bd).2 (calcArc env ctx st d bd).1.2)
      exact ⟨h3.1.trans (h2.1.trans h1.2.1), h3.2.trans (h2.2.trans h1.2.2)⟩
    · exact ⟨rfl, rfl⟩

/-- The `_choose_next_path` scan never loses a seeded best candidate. -/
theorem chooseScan_ne_none {Poly : Type} (env : Env Poly) (cp : Pt) :
    ∀ (l : List (ℕ × Pt)) (sh : ℚ) (b : ℕ × Pt),
      chooseScan env cp l sh (some b) ≠ none := by
  intro l
  induction l with
  | nil =>
    intro sh b h
    exact Option.noConfusion h
  | cons p rest ih =>
    intro sh b
    rcases p with ⟨e, v⟩
    simp only [chooseScan]
    split
    · exact ih _ _
    · exact ih _ _

/-- On a non-empty list the `_choose_next_path` scan returns a
candidate. -/
theorem chooseScan_cons_ne_none {Poly : Type} (env : Env Poly) (cp : Pt)
    (e : ℕ) (v : Pt) (rest : List (ℕ × Pt)) (sh : ℚ) :
    chooseScan env cp ((e, v) :: rest) sh none ≠ none := by
  simp only [chooseScan]
  exact chooseScan_ne_none env cp rest _ _

/-- When `_choose_next_path` returns `None` the purged `open_paths` dict
it leaves behind is empty. -/
theorem chooseNextPath_none {Poly : Type} (env : Env Poly) (visited : List ℕ)
    (openPaths : List (ℕ × Pt)) (currentPos : Option Pt) :
    (chooseNextPath env visited openPaths currentPos).1 = none →
    (chooseNextPath env visited openPaths currentPos).2 = [] := by
  cases hp : openPaths.filter (fun p => decide (p.1 ∉ visited)) with
  | nil =>
    intro _
    simp only [chooseNextPath]
    rw [hp]
  | cons hd tl =>
    intro h
    exfalso
    rcases hd with ⟨e0, v0⟩
    simp only [chooseNextPath] at h
    rw [hp] at h
    cases currentPos with
    | none => exact Option.noConfusion h
    | some cp =>
      dsimp only at h
      cases hs : chooseScan env cp ((e0, v0) :: tl) (env.maxDist + 1) none with
      | none => exact chooseScan_cons_ne_none env cp e0 v0 tl _ hs
      | some ev =>
        rcases ev with ⟨e, v⟩
        rw [hs] at h
        exact Option.noConfusion h

/-- Candidate selection in `_join_branches` only ever returns an edge
that was not yet visited (accumulator version). -/
theorem selectCandidateGo_fresh (bf : Bool) (edgeLen : ℕ → ℚ) (visited : List ℕ)
    (vertex : Pt) :
    ∀ (branches : List ℕ) (candidate : Option ℕ) (longest : ℚ)
      (openPaths : List (ℕ × Pt)),
      (∀ c, candidate = some c → c ∉ visited) →
      ∀ c, (selectCandidateGo bf edgeLen visited vertex branches candidate
              longest openPaths).1 = some c → c ∉ visited := by
  intro branches
  induction branches with
  | nil =>
    intro cand longest op hc c h
    exact hc c h
  | cons br rest ih =>
    intro cand longest op hc c h
    by_cases hbr : br ∈ visited
    · rw [show selectCandidateGo bf edgeLen visited vertex (br :: rest) cand longest op
          = selectCandidateGo bf edgeLen visited vertex rest cand longest op from by
        simp only [selectCandidateGo, if_pos hbr]] at h
      exact ih cand longest op hc c h
    · rw [show selectCandidateGo bf edgeLen visited vertex (br :: rest) cand longest op
          = selectCandidateGo bf edgeLen visited vertex rest
              (if cand = none then some br
               else if bf = true ∧ edgeLen br < longest then some br
               else if bf = false ∧ edgeLen br > longest then some br
               else cand)
              (max longest (edgeLen br)) (upsertOpenPath op br vertex) from by
        simp only [selectCandidateGo, if_neg hbr]] at h
      refine ih _ _ _ ?_ c h
      intro c2 hc2
      split at hc2
      · exact (Option.some.inj hc2) ▸ hbr
      · split at hc2
        · exact (Option.some.inj hc2) ▸ hbr
        · split at hc2
          · exact (Option.some.inj hc2) ▸ hbr
          · exact hc c2 hc2

/-- Candidate selection in `_join_branches` only ever returns an edge
that was not yet visited. -/
theorem selectCandidate_fresh (bf : Bool) (edgeLen : ℕ → ℚ) (visited : List ℕ)
    (vertex : Pt) (openPaths : List (ℕ × Pt)) (branches : List ℕ) (c : ℕ)
    (h : (selectCandidate bf edgeLen visited vertex openPaths branches).1 = some c) :
    c ∉ visited :=
  selectCandidateGo_fresh bf edgeLen visited vertex branches none 0 openPaths
    (fun c2 hc2 => Option.noConfusion hc2) c h

/-- The `_join_branches` walk leaves the queues alone, and because every
candidate it marks visited is fresh, it preserves `Nodup` of the visited
insertion trace. -/
theorem joinBranchesGo_inv {Poly : Type} (env : Env Poly) (sv : Pt) :
    ∀ (fuel : ℕ) (v : Pt) (st : PState Poly) (lc : List Pt) (st2 : PState Poly)
      (lc2 : List Pt),
      joinBranchesGo env sv fuel v st lc = some (st2, lc2) →
      st2.pendingArcQueues = st.pendingArcQueues
        ∧ (st.visitedEdges.Nodup → st2.visitedEdges.Nodup) := by
  intro fuel
  induction fuel with
  | zero =>
    intro v st lc st2 lc2 h
    exact Option.noConfusion h
  | succ fuel ih =>
    intro v st lc st2 lc2 h
    rcases hsel : selectCandidate BREADTH_FIRST env.edgeLen st.visitedEdges v
        st.openPaths (env.vertexToEdges v) with ⟨cand, op2⟩
    simp only [joinBranchesGo, hsel] at h
    cases cand with
    | none =>
      have h2 := Option.some.inj h
      have h3 : st2 = { st with openPaths := op2 } := (congrArg Prod.fst h2).symm
      rw [h3]
      exact ⟨rfl, fun hnd => hnd⟩
    | some c =>
      have hfresh : c ∉ st.visitedEdges := by
        apply selectCandidate_fresh BREADTH_FIRST env.edgeLen st.visitedEdges v
          st.openPaths (env.vertexToEdges v) c
        rw [hsel]
      have h2 := ih _ _ _ _ _ h
      refine ⟨h2.1, ?_⟩
      intro hnd
      exact h2.2 (nodup_append_singleton _ c hnd hfresh)

/-- `_join_branches` leaves the queues alone and preserves `Nodup` of
the visited trace. -/
theorem joinBranches_inv {Poly : Type} (env : Env Poly) (jfuel : ℕ) (v : Pt)
    (st st1 : PState Poly) (lo : Option (List Pt))
    (h : joinBranches env jfuel v st = some (st1, lo)) :
    st1.pendingArcQueues = st.pendingArcQueues
      ∧ (st.visitedEdges.Nodup → st1.visitedEdges.Nodup) := by
  unfold joinBranches at h
  cases hgo : joinBranchesGo env v jfuel v st [] with
  | none =>
    rw [hgo] at h
    exact Option.noConfusion h
  | some pr =>
    rcases pr with ⟨stg, lcg⟩
    rw [hgo] at h
    have h2 := joinBranchesGo_inv env v jfuel v st [] stg lcg hgo
    have h3 : stg = st1 := congrArg Prod.fst (Option.some.inj h)
    rw [← h3]
    exact h2

/-- `_flush_arc_queues` empties the queues and leaves the visited set
and open paths alone. -/
theorem flushArcQueues_frame {Poly : Type} (env : Env Poly) (st : PState Poly) :
    (flushArcQueues env st).pendingArcQueues = []
      ∧ (flushArcQueues env st).visitedEdges = st.visitedEdges
      ∧ (flushArcQueues env st).openPaths = st.openPaths := by
  have haux : ∀ (l : List (List ArcData)) (s : PState Poly),
      (l.foldl (fun s2 q => arcsToPath env s2 q) s).pendingArcQueues = s.pendingArcQueues
        ∧ (l.foldl (fun s2 q => arcsToPath env s2 q) s).visitedEdges = s.visitedEdges
        ∧ (l.foldl (fun s2 q => arcsToPath env s2 q) s).openPaths = s.openPaths := by
    intro l
    induction l with
    | nil => exact fun s => ⟨rfl, rfl, rfl⟩
    | cons x xs ih =>
      intro s
      have h1 := arcsToPath_frame env x s
      have h2 := ih (arcsToPath env s x)
      exact ⟨h2.1.trans h1.1, h2.2.1.trans h1.2.1, h2.2.2.trans h1.2.2⟩
  exact haux st.pendingArcQueues { st with pendingArcQueues := [] }

/-- Driver invariant, by induction over the outer-loop fuel. -/
theorem getArcsOuter_inv_aux {Poly : Type} (env : Env Poly) (jfuel : ℕ) :
    ∀ (fuel : ℕ) (sv : Option Pt) (st stF : PState Poly),
      st.pendingArcQueues = [] → st.visitedEdges.Nodup →
      (sv = none → st.openPaths = []) →
      getArcsOuter env jfuel fuel sv st = some stF →
      stF.openPaths = [] ∧ stF.pendingArcQueues = [] ∧ stF.visitedEdges.Nodup := by
  intro fuel
  induction fuel with
  | zero =>
    intro sv st stF hq hnd hop hrun
    cases sv with
    | none =>
      have h2 : st = stF := Option.some.inj hrun
      rw [← h2]
      exact ⟨hop rfl, hq, hnd⟩
    | some v => exact Option.noConfusion hrun
  | succ fuel ih =>
    intro sv st stF hq hnd hop hrun
    cases sv with
    | none =>
      have h2 : st = stF := Option.some.inj hrun
      rw [← h2]
      exact ⟨hop rfl, hq, hnd⟩
    | some v =>
      simp only [getArcsOuter] at hrun
      cases hjb : joinBranches env jfuel v st with
      | none =>
        rw [hjb] at hrun
        exact Option.noConfusion hrun
      | some pr =>
        rcases pr with ⟨st1, lineOpt⟩
        rw [hjb] at hrun
        have hj := joinBranches_inv env jfuel v st st1 lineOpt hjb
        cases lineOpt with
        | none =>
          refine ih _ _ stF ?_ ?_ ?_ hrun
          · show (chooseNextPathSt env st1 none).2.pendingArcQueues = []
            rw [show (chooseNextPathSt env st1 none).2.pendingArcQueues
                = st1.pendingArcQueues from rfl, hj.1, hq]
          · exact hj.2 hnd
          · intro hnone
            exact chooseNextPath_none env st1.visitedEdges st1.openPaths none hnone
        | some edge =>
          refine ih _ _ stF ?_ ?_ ?_ hrun
          · exact (flushArcQueues_frame env _).1
          · show (flushArcQueues env _).visitedEdges.Nodup
            rw [(flushArcQueues_frame env _).2.1]
            show ((innerLoop env (env.edgeCtxOf edge)
                ((Int.floor ((env.edgeCtxOf edge).length * 10 / env.step + 10)).toNat)
                0 0 st1).1).visitedEdges.Nodup
            rw [(innerLoop_frame env (env.edgeCtxOf edge) _ 0 0 st1).1]
            exact hj.2 hnd
          · intro hnone
            rw [(flushArcQueues_frame env _).2.2]
            exact chooseNextPath_none env _ _ _ hnone

/-- C8: when the plan terminates (the outer loop of `get_arcs` ends
because `_choose_next_path` found nothing), `open_paths` is empty,
`pending_arc_queues` is empty (the per-section flush drained them), and
the insertion trace of `visited_edges` has no duplicates — every edge id
was added at most once over the whole run. -/
theorem getArcs_termination_inv {Poly : Type} (env : Env Poly) (jfuel fuel : ℕ)
    (v0 : Pt) (st0 stF : PState Poly)
    (hq : st0.pendingArcQueues = []) (hnd : st0.visitedEdges.Nodup)
    (hrun : getArcsOuter env jfuel fuel (some v0) st0 = some stF) :
    stF.openPaths = [] ∧ stF.pendingArcQueues = [] ∧ stF.visitedEdges.Nodup :=
  getArcsOuter_inv_aux env jfuel fuel (some v0) st0 stF hq hnd
    (fun h => Option.noConfusion h) hrun

/-- C8 witness: a concrete run to completion (no spine edges at the
start vertex, so the driver takes the continue branch and then
terminates because `open_paths` is empty). -/
theorem getArcs_termination_inv_witness :
    stU.openPaths = [] ∧ stU.pendingArcQueues = [] ∧ stU.visitedEdges.Nodup :=
  getArcs_termination_inv envBase 1 2 ((0 : ℚ), (0 : ℚ)) stU stU rfl
    List.nodup_nil (by with_unfolding_all rfl)

end HSM
